import Mathlib

/-!
Verification of the Hashlife core (bit kernel, 8x8 cell block, dense
hash-consing set, macrocell, arena) against its specification.

The C++ sources are shallowly embedded: machine words (`std::uint64_t`,
`std::size_t`, `std::uint32_t`) are natural numbers, with reductions
`% 2 ^ 64` (resp. `% 2 ^ 32`, `% 256`) inserted exactly where the machine
arithmetic truncates.  Stateful containers become explicit state-passing
functions on structures.
-/

namespace Hashlife

/-- The modulus of 64-bit machine words (`std::uint64_t`, `std::size_t`). -/
def U64 : Nat := 2 ^ 64

/-! ### Bit kernel (`bitwise.hpp`) -/

/-- Source: `bit(value, index)` from bitwise.hpp: `(value >> index) & 1u`.
This is the documented reading, in which a right shift of a 64-bit value by
`index ≥ 64` yields `0` (the doc comment: bits outside the range of the
value are given to be `false`). -/
def bit (value index : Nat) : Bool := (value >>> index) &&& 1 == 1

/-- The shift that mainstream hardware performs for the out-of-range case
that ISO C++ leaves undefined: x86-64 and AArch64 take the shift amount of a
64-bit shift modulo 64.  `bit_hw` is `bit` as actually computed by compiled
code on such targets; it only differs from `bit` when `index ≥ 64`. -/
def bit_hw (value index : Nat) : Bool := (value >>> (index % 64)) &&& 1 == 1

/-- Source: `set(value, index)` from bitwise.hpp: `value |= Unsigned(1) << index` on
`std::uint64_t`, under the documented reading, where a left shift past the
width contributes nothing (`(1 <<< index) % 2 ^ 64 = 0` for `index ≥ 64`,
so the operation is a no-op, as its doc comment promises). -/
def set (value index : Nat) : Nat := value ||| ((1 <<< index) % U64)

/-- Source: `set(value, index)` as actually computed on x86-64/AArch64, where the
shift amount of a 64-bit shift is taken modulo 64: for `index ≥ 64` the code
sets bit `index % 64` instead of being a no-op. -/
def set_hw (value index : Nat) : Nat := value ||| (1 <<< (index % 64))

/-- Source: `half_add(left, right)` from bitwise.hpp: `(left ^ right, left & right)`. -/
def half_add (left right : Nat) : Nat × Nat := (left ^^^ right, left &&& right)

/-- Source: `full_add(left, right, carry)` from bitwise.hpp:
sum `left ^ right ^ carry`, carry `(l & r) | (l & c) | (r & c)`. -/
def full_add (left right carry : Nat) : Nat × Nat :=
  (left ^^^ right ^^^ carry, (left &&& right) ||| (left &&& carry) ||| (right &&& carry))

/-! ### Cell block (`cells.hpp` / `cells.cpp`) -/

/-- 64-bit left shift including the truncation a `std::uint64_t` performs. -/
def shl64 (x n : Nat) : Nat := (x <<< n) % U64

/-- Bitwise complement `~x` of a `std::uint64_t` value. -/
def compl64 (x : Nat) : Nat := x ^^^ (U64 - 1)

/-- The border mask of `cells::step`: `0x007e7e7e7e7e7e00`. -/
def step_mask : Nat := 0x007e7e7e7e7e7e00

/-- The center mask of `cells::next`: `0x00003c3c3c3c0000`. -/
def next_mask : Nat := 0x00003c3c3c3c0000

/-- Source: `cells::neighbours()`: the three bitplanes `(sum1, sum2, sum4)` of the
per-cell 3x3 neighbourhood population count (self included), computed with
SIMD-within-a-register adders exactly as in cells.cpp. -/
def neighbours (bitmap : Nat) : Nat × Nat × Nat :=
  let left := shl64 bitmap 1
  let right := bitmap >>> 1
  let (mid1, mid2) := full_add left bitmap right
  let up1 := shl64 mid1 8
  let up2 := shl64 mid2 8
  let down1 := mid1 >>> 8
  let down2 := mid2 >>> 8
  let (sum1, sum2a) := full_add up1 mid1 down1
  let (sum2b, sum4a) := full_add up2 mid2 down2
  let (sum2, sum4b) := half_add sum2a sum2b
  let sum4 := sum4a ^^^ sum4b
  (sum1, sum2, sum4)

/-- Source: `cells::step()` from cells.cpp: one Life generation, border masked to 0. -/
def step (bitmap : Nat) : Nat :=
  let (sum1, sum2, sum4) := neighbours bitmap
  let case1 := bitmap &&& (compl64 sum1 &&& compl64 sum2 &&& sum4)
  let case2 := sum1 &&& sum2 &&& compl64 sum4
  (case1 ||| case2) &&& step_mask

/-- Source: `cells::next()` from cells.cpp: `step().step()` masked to the inner 4x4. -/
def next (bitmap : Nat) : Nat := step (step bitmap) &&& next_mask

/-- Source: `cells::operator()(x, y)` from cells.cpp: `(bitmap >> (x + y*columns)) & 1`. -/
def alive (bitmap x y : Nat) : Bool := (bitmap >>> (x + y * 8)) &&& 1 == 1

/-- The textual `cells` constructor from cells.cpp, parameterised by the
bit-setting primitive (`Hashlife.set` for the documented semantics,
`Hashlife.set_hw` for the shift-modulo-64 semantics hardware gives the
out-of-range shifts that ISO C++ leaves undefined).  State is
`(bitmap, row, column)`; `'*'` sets bit `column + row*8` and advances the
column, `'.'` advances the column, `'$'` resets the column and advances the
row, every other character is ignored. -/
def cells_of_format_loop (setBit : Nat → Nat → Nat) :
    List Char → Nat → Nat → Nat → Nat
  | [], bitmap, _, _ => bitmap
  | ch :: rest, bitmap, row, column =>
    if ch = '*' then
      cells_of_format_loop setBit rest (setBit bitmap (column + row * 8)) row (column + 1)
    else if ch = '.' then
      cells_of_format_loop setBit rest bitmap row (column + 1)
    else if ch = '$' then
      cells_of_format_loop setBit rest bitmap (row + 1) 0
    else
      cells_of_format_loop setBit rest bitmap row column

/-- Source: `cells{format}` under the documented shift semantics. -/
def cells_of_format (format : List Char) : Nat :=
  cells_of_format_loop set format 0 0 0

/-- Source: `cells{format}` as compiled for x86-64/AArch64 (shift amounts mod 64). -/
def cells_of_format_hw (format : List Char) : Nat :=
  cells_of_format_loop set_hw format 0 0 0

/-! ### Boolean mirror of the step circuit, used to state the per-cell
correctness of `step`.  `step_bit_fun nw n ne w c e sw s se` is the value of
one output bit of `step` as a function of the nine neighbourhood input bits
(north-west, north, ..., centre, ..., south-east). -/

/-- Source: `half_add` on single bits. -/
def half_add_bit (l r : Bool) : Bool × Bool := (l.xor r, l && r)

/-- Source: `full_add` on single bits. -/
def full_add_bit (l r c : Bool) : Bool × Bool :=
  ((l.xor r).xor c, (l && r) || (l && c) || (r && c))

/-- One output bit of the step circuit as a function of the 3x3 input
neighbourhood, mirroring `cells::neighbours` and `cells::step` bit by bit. -/
def step_bit_fun (nw n ne w c e sw s se : Bool) : Bool :=
  let t := full_add_bit nw n ne
  let m := full_add_bit w c e
  let d := full_add_bit sw s se
  let v := full_add_bit t.1 m.1 d.1
  let u := full_add_bit t.2 m.2 d.2
  let h := half_add_bit v.2 u.1
  let sum1 := v.1
  let sum2 := h.1
  let sum4 := u.2.xor h.2
  (c && (!sum1 && !sum2 && sum4)) || (sum1 && sum2 && !sum4)

/-- Number of live cells among the eight neighbours of `(c, r)` in `bitmap`
(positions per `cells::operator()`). -/
def neighbour_count (bitmap c r : Nat) : Nat :=
  (alive bitmap (c - 1) (r - 1)).toNat + (alive bitmap c (r - 1)).toNat +
  (alive bitmap (c + 1) (r - 1)).toNat + (alive bitmap (c - 1) r).toNat +
  (alive bitmap (c + 1) r).toNat + (alive bitmap (c - 1) (r + 1)).toNat +
  (alive bitmap c (r + 1)).toNat + (alive bitmap (c + 1) (r + 1)).toNat

/-! ### Dense hash-consing set (`dense_set.hpp`)

The set stores keys in a `static_vector<Key> _elements` and one byte of
metadata per slot in a `static_vector<sentinel> _sentinels`; both have
length `max_size()`.  Keys, hashes and equality are the template
parameters; here they become a type `Key` with decidable equality, an
`Inhabited` default (the value a default-constructed C++ slot holds) and an
explicit `hash : Key → Nat` argument whose values are `std::size_t`, i.e.
below `2 ^ 64`. -/

/-- The reduced 7-bit tag computed by `find` and `emplace`:
`(std::uint8_t)(hash >> (8*sizeof(hash) - 7)) & 0xef`.  The cast to
`uint8_t` is the `% 256`; `8*sizeof(hash) - 7 = 57` for 64-bit `size_t`. -/
def reduced_hash (h : Nat) : Nat := ((h >>> 57) % 256) &&& 0xef

/-- Slot metadata: occupancy flag `_filled : 1` and tag `_reduced_hash : 7`. -/
structure Sentinel where
  filled : Bool
  tag : Nat
deriving DecidableEq, Repr

/-- The value-initialised sentinel: `_filled{false}, _reduced_hash{0x00}`. -/
def Sentinel.init : Sentinel := ⟨false, 0⟩

/-- Source: `sentinel::colonize`: raise the flag and store the reduced hash; the
7-bit bitfield truncates the stored value `% 128`. -/
def Sentinel.colonize (reduced : Nat) : Sentinel := ⟨true, reduced % 128⟩

/-- Source: `sentinel::empty`. -/
def Sentinel.isEmpty (s : Sentinel) : Bool := !s.filled

/-- Source: `sentinel::matches`: occupied and the stored 7-bit tag equals the
reduced hash of the probe. -/
def Sentinel.matchesTag (s : Sentinel) (reduced : Nat) : Bool :=
  s.filled && (s.tag == reduced)

/-- The table state: parallel element and sentinel arrays. -/
structure dense_set (Key : Type) where
  elements : List Key
  sentinels : List Sentinel
deriving DecidableEq, Repr

namespace dense_set

variable {Key : Type} [DecidableEq Key] [Inhabited Key]

/-- Source: `max_size()`: the fixed capacity (`_elements.max_size()`). -/
def max_size (s : dense_set Key) : Nat := s.elements.length

/-- Source: `_sentinels[i]` (out-of-range reads modelled by the empty sentinel;
they are proved not to occur where it matters). -/
def sentinelAt (s : dense_set Key) (i : Nat) : Sentinel :=
  s.sentinels.getD i Sentinel.init

/-- Source: `_elements[i]` (default-constructed key when the slot was never set). -/
def elementAt (s : dense_set Key) (i : Nat) : Key := s.elements.getD i default

/-- Source: `dense_set{count}`: `count` default-constructed elements, all
sentinels value-initialised. -/
def new (Key : Type) [Inhabited Key] (count : Nat) : dense_set Key :=
  ⟨List.replicate count default, List.replicate count Sentinel.init⟩

/-- Source: `dense_set::find(key)`.  The C++ loop checks slot `first = hash % C`,
then `first+1, …, first+C-1` (wrapping at `C = max_size()`), and returns
the first slot whose sentinel matches the reduced hash and whose element
equals the key, or the end index `C` when the whole table was scanned; the
`List.find?` below enumerates exactly those `C` slots in that order. -/
def find (hash : Key → Nat) (s : dense_set Key) (key : Key) : Nat :=
  let h := hash key
  let reduced := reduced_hash h
  let first := h % s.max_size
  match (List.range s.max_size).find? (fun k =>
      (s.sentinelAt ((first + k) % s.max_size)).matchesTag reduced &&
      (s.elementAt ((first + k) % s.max_size) == key)) with
  | some k => (first + k) % s.max_size
  | none => s.max_size

/-- Source: `dense_set::probe(location)`.  The C++ loop checks slot `first` before
entering, then `first+1, …` with `spots_visited` counting from 0; it stops
with the end index when `spots_visited == 10` (after having tested slot
`first+11`) or when the walk wraps back to `first` (after `max_size()`
steps).  So the slots whose emptiness is tested are `(first + k) % C` for
`k = 0, 1, …, min C 11`, in order, and the first empty one is returned. -/
def probe (s : dense_set Key) (first : Nat) : Nat :=
  match (List.range (min s.max_size 11 + 1)).find? (fun k =>
      (s.sentinelAt ((first + k) % s.max_size)).isEmpty) with
  | some k => (first + k) % s.max_size
  | none => s.max_size

/-- Source: `dense_set::emplace(args…)`: construct the key, `find` it (hit → return
`(found, false)` without touching the table), otherwise `probe` from
`hash % max_size()` (failure → `(end, false)`), otherwise colonize the free
slot with the reduced hash, move the key in, and return `(slot, true)`.
The result is `(new table state, iterator index, inserted?)`. -/
def emplace (hash : Key → Nat) (s : dense_set Key) (x : Key) :
    dense_set Key × Nat × Bool :=
  let location := find hash s x
  if location ≠ s.max_size then (s, location, false)
  else
    let h := hash x
    let loc2 := probe s (h % s.max_size)
    if loc2 = s.max_size then (s, loc2, false)
    else
      (⟨s.elements.set loc2 x,
        s.sentinels.set loc2 (Sentinel.colonize (reduced_hash h))⟩, loc2, true)

/-- Source: `dense_set::size()`: the number of filled sentinels. -/
def size (s : dense_set Key) : Nat := (s.sentinels.filter Sentinel.filled).length

/-- Source: `dense_set::clear()`: reset every sentinel, keep the elements array. -/
def clear (s : dense_set Key) : dense_set Key :=
  ⟨s.elements, List.replicate s.sentinels.length Sentinel.init⟩

/-- The scanning loop of `iterator::operator++`:
`while (owner->_sentinels[index].empty()) ++index;`.  Each iteration reads
`_sentinels[index]`; the loop has no bound, so the model returns the index
of the first filled sentinel when one exists in range, and `none` at the
first read with `index ≥ max_size()` — the point where the C++ code indexes
`_sentinels` out of bounds (`static_vector`'s debug assertion fires; a
release build reads past the allocation).  The fuel argument counts the
remaining in-range slots. -/
def iter_scan (s : dense_set Key) : Nat → Nat → Option Nat
  | 0, _ => none
  | fuel + 1, i => if (s.sentinelAt i).isEmpty then iter_scan s fuel (i + 1) else some i

/-- Source: `iterator::operator++` starting from `index`: `++index` then scan.
`some j` means the iterator lands on filled slot `j`; `none` means the scan
ran past the last slot and read `_sentinels` out of bounds. -/
def iter_inc (s : dense_set Key) (index : Nat) : Option Nat :=
  iter_scan s (s.max_size - (index + 1)) (index + 1)

/-- Slot `i` is occupied and holds a key equal to `x`. -/
def holdsKey (s : dense_set Key) (x : Key) (i : Nat) : Prop :=
  (s.sentinelAt i).filled = true ∧ s.elementAt i = x

/-- The per-slot test of `find` (named so proofs can speak about the
`List.find?` inside `find`): sentinel tag match and key equality at the
`k`-th probed slot. -/
def findPred (hash : Key → Nat) (s : dense_set Key) (key : Key) (k : Nat) : Bool :=
  (s.sentinelAt ((hash key % s.max_size + k) % s.max_size)).matchesTag
    (reduced_hash (hash key)) &&
  (s.elementAt ((hash key % s.max_size + k) % s.max_size) == key)

/-- The per-slot test of `probe`: emptiness of the `k`-th probed slot. -/
def probePred (s : dense_set Key) (first k : Nat) : Bool :=
  (s.sentinelAt ((first + k) % s.max_size)).isEmpty

/-- Well-formedness of a table state: positive capacity, parallel arrays of
equal length, and every occupied slot's stored tag is the reduced hash of
its key (which `colonize` guarantees). -/
def WF (hash : Key → Nat) (s : dense_set Key) : Prop :=
  0 < s.max_size ∧ s.sentinels.length = s.elements.length ∧
  ∀ i, i < s.max_size → (s.sentinelAt i).filled = true →
    (s.sentinelAt i).tag = reduced_hash (hash (s.elementAt i))

/-- The states reachable from a freshly constructed table by `emplace` and
`clear` (with a fixed hash function). -/
inductive Reachable (hash : Key → Nat) : dense_set Key → Prop
  | mk_new : ∀ count : Nat, 0 < count → Reachable hash (new Key count)
  | mk_emplace : ∀ s x, Reachable hash s → Reachable hash (emplace hash s x).1
  | mk_clear : ∀ s, Reachable hash s → Reachable hash s.clear

end dense_set

/-- The hash of the integer keys used in the dense-set tests
(`std::hash` of an integer is the identity on the machine word). -/
def id_hash (k : Nat) : Nat := k % U64

/-- A capacity-13 table holding keys 0–9, each at its home slot 0–9: the
scenario that separates a 10-slot probe window from the implemented one. -/
def window_table : dense_set Nat :=
  List.foldl (fun t k => (dense_set.emplace id_hash t k).1) (dense_set.new Nat 13)
    [0, 1, 2, 3, 4, 5, 6, 7, 8, 9]

/-! ### Node pointer and macrocell (`macrocell.hpp`) -/

/-- Source: `life::pointer`: a 32-bit index with `0xffffffff` reserved for null. -/
structure pointer where
  offset : Nat
deriving DecidableEq, Repr

/-- Source: `pointer::null_value = std::numeric_limits<std::uint32_t>::max()`. -/
def pointer.null_value : Nat := 2 ^ 32 - 1

/-- Source: `pointer(nullptr)`. -/
def pointer.ofNull : pointer := ⟨pointer.null_value⟩

/-- Source: `pointer(std::size_t offset)`: the `(std::uint32_t)offset` cast. -/
def pointer.ofIndex (offset : Nat) : pointer := ⟨offset % 2 ^ 32⟩

/-- Source: `pointer::hash()`: the raw offset. -/
def pointer.hash (p : pointer) : Nat := p.offset

/-- Source: `pointer::operator bool()`. -/
def pointer.toBool (p : pointer) : Bool := p.offset != pointer.null_value

/-- Source: `internal::hash_combine` from hash.hpp:
`seed ^= std::hash<T>{}(v) + 0x9e3779b9 + (seed << 6) + (seed >> 2)`,
with the right-hand side evaluated in `std::size_t` arithmetic. -/
def hash_combine (seed h : Nat) : Nat :=
  seed ^^^ ((h + 0x9e3779b9 + ((seed <<< 6) % U64) + (seed >>> 2)) % U64)

/-- Source: `variadic_hash(a, b, c, d)`: seed 42 combined with the four hashes in
order. -/
def variadic_hash4 (h0 h1 h2 h3 : Nat) : Nat :=
  hash_combine (hash_combine (hash_combine (hash_combine 42 h0) h1) h2) h3

/-- Source: `life::macrocell`: `std::array<pointer, 2> future` (one step, then
`2^{n-2}` steps) and `std::array<pointer, 4> children` (nw, ne, sw, se). -/
structure macrocell where
  future : pointer × pointer
  children : pointer × pointer × pointer × pointer
deriving DecidableEq, Repr

/-- The constructor `macrocell(nw, ne, sw, se)`: both future slots null. -/
def macrocell.make (nw ne sw se : pointer) : macrocell :=
  ⟨(pointer.ofNull, pointer.ofNull), (nw, ne, sw, se)⟩

/-- Source: `macrocell::operator==`:
`future == other.future && children == other.children`. -/
def macrocell.beq (a b : macrocell) : Bool :=
  decide (a.future = b.future) && decide (a.children = b.children)

/-- Source: `macrocell::hash()`:
`variadic_hash(children[0], children[1], children[2], children[3])`. -/
def macrocell.hash (m : macrocell) : Nat :=
  variadic_hash4 m.children.1.hash m.children.2.1.hash
    m.children.2.2.1.hash m.children.2.2.2.hash

/-! ### Arena -/

/-- Modelled from the spec: the `memory_arena` implementation is not under
src/ — only its tests (in the test cases appended to hash.hpp) and the spec
§4.4 describe it.  Per the spec, an arena of capacity `N` is a fixed buffer
plus a high-water mark `head`, initially 0. -/
structure memory_arena where
  size : Nat
  head : Nat
deriving DecidableEq, Repr

/-- Modelled from the spec: `memory_arena{N}` — `head := 0`. -/
def memory_arena.new (count : Nat) : memory_arena := ⟨count, 0⟩

/-- Modelled from the spec: `allocate(n)` returns a pointer to `n`
consecutive slots (modelled by the index of the first slot) and advances
`head` by `n`; on `head + n > N` it returns null without modifying `head`. -/
def memory_arena.allocate (a : memory_arena) (n : Nat) : Option Nat × memory_arena :=
  if a.size < a.head + n then (none, a) else (some a.head, ⟨a.size, a.head + n⟩)

/-- Modelled from the spec: `full()` is `head == N`. -/
def memory_arena.full (a : memory_arena) : Bool := a.head == a.size

end Hashlife

namespace Hashlife

/-! ## Theorems -/

/-! ### The step kernel follows the Life rules (claim C1) -/

/-- Lemma: `alive` reads exactly the `testBit` of the bitmap at `x + y*8`. -/
theorem alive_eq_testBit (b x y : Nat) : alive b x y = b.testBit (x + y * 8) := by
  unfold alive
  rw [Nat.testBit_to_div_mod, Nat.and_one_is_mod, Nat.shiftRight_eq_div_pow]
  rcases Nat.mod_two_eq_zero_or_one (b / 2 ^ (x + y * 8)) with h | h <;> simp [h]

/-- Bit `q + 9` of `step b` is the step circuit applied to the nine bits
`q, q+1, q+2, q+8, q+9, q+10, q+16, q+17, q+18` of `b`, conjoined with the
border mask bit.  (`q + 9` ranges over all positions with a full 3x3 window
of in-word bit positions.) -/
theorem step_testBit (b q : Nat) (hq : q ≤ 45) :
    (step b).testBit (q + 9) =
      (step_bit_fun (b.testBit q) (b.testBit (q + 1)) (b.testBit (q + 2))
        (b.testBit (q + 8)) (b.testBit (q + 9)) (b.testBit (q + 10))
        (b.testBit (q + 16)) (b.testBit (q + 17)) (b.testBit (q + 18))
        && step_mask.testBit (q + 9)) := by
  have d1 : q + 9 < 64 := by omega
  have d2 : q + 1 < 64 := by omega
  have d3 : 8 + (q + 9) < 64 := by omega
  have e1 : 8 + (q + 9) = q + 17 := by omega
  have e2 : 1 + (q + 1) = q + 2 := by omega
  have e3 : 1 + (q + 9) = q + 10 := by omega
  have e4 : 1 + (q + 17) = q + 18 := by omega
  have e5 : q + 17 < 64 := by omega
  have s1 : q + 9 - 8 = q + 1 := rfl
  have s2 : q + 9 - 8 - 1 = q := rfl
  have s3 : q + 9 - 1 = q + 8 := rfl
  have s4 : q + 17 - 1 = q + 16 := rfl
  have s5 : q + 1 - 1 = q := rfl
  have c1 : 8 ≤ q + 9 := by omega
  have c2 : 1 ≤ q + 9 := by omega
  have c3 : 1 ≤ q + 1 := by omega
  have c4 : 1 ≤ q + 17 := by omega
  simp only [step, neighbours, half_add, full_add, shl64, compl64, U64, step_bit_fun,
    half_add_bit, full_add_bit, Nat.testBit_land, Nat.testBit_lor, Nat.testBit_xor,
    Nat.testBit_mod_two_pow, Nat.testBit_shiftLeft, Nat.testBit_shiftRight,
    Nat.testBit_two_pow_sub_one, s1, s2, s3, s4, s5, e1, e2, e3, e4, d1, d2, d3, e5,
    c1, c2, c3, c4, decide_True, Bool.true_and, Bool.xor_true, ge_iff_le]

/-- The step circuit on nine bits computes the B3/S23 rule: the output is
live iff the centre is live with neighbour count 2 or 3, or dead with
neighbour count 3 (checked over all 512 inputs). -/
theorem step_bit_fun_eq_rule : ∀ nw n ne w c e sw s se : Bool,
    step_bit_fun nw n ne w c e sw s se =
      ((c && ((nw.toNat + n.toNat + ne.toNat + w.toNat + e.toNat + sw.toNat + s.toNat +
          se.toNat == 2) ||
        (nw.toNat + n.toNat + ne.toNat + w.toNat + e.toNat + sw.toNat + s.toNat +
          se.toNat == 3))) ||
       (!c && (nw.toNat + n.toNat + ne.toNat + w.toNat + e.toNat + sw.toNat + s.toNat +
          se.toNat == 3))) := by
  decide

/-- The step mask keeps every interior position. -/
theorem step_mask_interior : ∀ c < 8, ∀ r < 8,
    ((1 ≤ c ∧ c ≤ 6 ∧ 1 ≤ r ∧ r ≤ 6) → step_mask.testBit (c + r * 8) = true) := by
  decide

/-- The step mask clears every border position. -/
theorem step_mask_border : ∀ c < 8, ∀ r < 8,
    ((c = 0 ∨ c = 7 ∨ r = 0 ∨ r = 7) → step_mask.testBit (c + r * 8) = false) := by
  decide

/-- C1: for every 8x8 block, `step` applies B3/S23 at every interior cell
(`1 ≤ c ≤ 6`, `1 ≤ r ≤ 6`): the result is alive iff the cell was alive with
exactly 2 or 3 live neighbours, or dead with exactly 3 live neighbours; and
every border cell (row 0 or 7, column 0 or 7) of the result is dead. -/
theorem step_follows_life_rules (b : Nat) (hb : b < U64) :
    (∀ c r, 1 ≤ c → c ≤ 6 → 1 ≤ r → r ≤ 6 →
      alive (step b) c r =
        ((alive b c r && (neighbour_count b c r == 2 || neighbour_count b c r == 3)) ||
         (!alive b c r && (neighbour_count b c r == 3)))) ∧
    (∀ c r, c < 8 → r < 8 → (c = 0 ∨ c = 7 ∨ r = 0 ∨ r = 7) →
      alive (step b) c r = false) := by
  constructor
  · intro c r hc1 hc6 hr1 hr6
    obtain ⟨q, hq⟩ : ∃ q, c + r * 8 = q + 9 := ⟨c + r * 8 - 9, by omega⟩
    have hq45 : q ≤ 45 := by omega
    have a0 : b.testBit q = alive b (c - 1) (r - 1) := by
      rw [alive_eq_testBit]; congr 1; omega
    have a1 : b.testBit (q + 1) = alive b c (r - 1) := by
      rw [alive_eq_testBit]; congr 1; omega
    have a2 : b.testBit (q + 2) = alive b (c + 1) (r - 1) := by
      rw [alive_eq_testBit]; congr 1; omega
    have a3 : b.testBit (q + 8) = alive b (c - 1) r := by
      rw [alive_eq_testBit]; congr 1; omega
    have a4 : b.testBit (q + 9) = alive b c r := by
      rw [alive_eq_testBit]; congr 1; omega
    have a5 : b.testBit (q + 10) = alive b (c + 1) r := by
      rw [alive_eq_testBit]; congr 1; omega
    have a6 : b.testBit (q + 16) = alive b (c - 1) (r + 1) := by
      rw [alive_eq_testBit]; congr 1; omega
    have a7 : b.testBit (q + 17) = alive b c (r + 1) := by
      rw [alive_eq_testBit]; congr 1; omega
    have a8 : b.testBit (q + 18) = alive b (c + 1) (r + 1) := by
      rw [alive_eq_testBit]; congr 1; omega
    have hm : step_mask.testBit (q + 9) = true := by
      rw [← hq]; exact step_mask_interior c (by omega) r (by omega) ⟨hc1, hc6, hr1, hr6⟩
    rw [alive_eq_testBit, hq, step_testBit b q hq45, hm, Bool.and_true,
      a0, a1, a2, a3, a4, a5, a6, a7, a8, step_bit_fun_eq_rule]
    rfl
  · intro c r hc hr hedge
    rcases hnb : neighbours b with ⟨s1, s2, s4⟩
    have hm : step_mask.testBit (c + r * 8) = false := step_mask_border c hc r hr hedge
    rw [alive_eq_testBit]
    simp [step, hnb, Nat.testBit_land, hm]

/-- Witness for C1 at the concrete bitmap 7 (three live cells in row 0) and
the interior cell (2, 1), whose three live neighbours give birth. -/
theorem step_follows_life_rules_witness :
    (7 : Nat) < U64 ∧
    alive (step 7) 2 1 =
      ((alive 7 2 1 && (neighbour_count 7 2 1 == 2 || neighbour_count 7 2 1 == 3)) ||
       (!alive 7 2 1 && (neighbour_count 7 2 1 == 3))) :=
  ⟨by decide,
   (step_follows_life_rules 7 (by decide)).1 2 1 (by decide) (by decide) (by decide)
     (by decide)⟩

/-! ### Macrocell equality and hashing (claim C2) -/

/-- C2 counterexample: two macrocells with identical child tuples but
different future memo slots do *not* compare equal under
`macrocell::operator==`, because it compares the future array as well. -/
theorem macrocell_beq_reads_future_cex :
    (macrocell.make pointer.ofNull pointer.ofNull pointer.ofNull pointer.ofNull).children =
      (macrocell.mk (⟨0⟩, pointer.ofNull)
        (pointer.ofNull, pointer.ofNull, pointer.ofNull, pointer.ofNull)).children ∧
    macrocell.beq (macrocell.make pointer.ofNull pointer.ofNull pointer.ofNull pointer.ofNull)
      (macrocell.mk (⟨0⟩, pointer.ofNull)
        (pointer.ofNull, pointer.ofNull, pointer.ofNull, pointer.ofNull)) = false := by
  decide

/-- C2 (amended): `macrocell::operator==` holds iff the two future memo
pairs *and* the two child tuples are equal (so freshly constructed
macrocells, whose futures are both null, compare equal exactly on their
children), while `macrocell::hash` depends on the children only: equal
child tuples give equal hashes whatever the memo slots hold. -/
theorem macrocell_beq_and_hash :
    (∀ a b : macrocell,
      (macrocell.beq a b = true) ↔ (a.future = b.future ∧ a.children = b.children)) ∧
    (∀ a b : macrocell, a.children = b.children → macrocell.hash a = macrocell.hash b) := by
  constructor
  · intro a b
    simp [macrocell.beq]
  · intro a b h
    unfold macrocell.hash
    rw [h]

/-- Witness for C2 (amended) on two concrete macrocells with equal children
and different future slots. -/
theorem macrocell_beq_and_hash_witness :
    macrocell.hash
        (macrocell.mk (⟨5⟩, pointer.ofNull) (⟨1⟩, ⟨2⟩, ⟨3⟩, ⟨4⟩)) =
      macrocell.hash (macrocell.make ⟨1⟩ ⟨2⟩ ⟨3⟩ ⟨4⟩) :=
  macrocell_beq_and_hash.2
    (macrocell.mk (⟨5⟩, pointer.ofNull) (⟨1⟩, ⟨2⟩, ⟨3⟩, ⟨4⟩))
    (macrocell.make ⟨1⟩ ⟨2⟩ ⟨3⟩ ⟨4⟩) (by decide)

/-! ### Out-of-range `bit` (claim C7) -/

/-- C7: `bit(v, i)` for `i ≥ width(v)` performs `v >> i` with a shift
amount at least the operand width — undefined behaviour in C++.  On
x86-64/AArch64 the emitted shift takes the amount modulo 64, so
`bit(1, 64)` computes `(1 >> 0) & 1 = 1`, i.e. `true`, while the contract
(and the function's own documentation) require `false`. -/
theorem bit_out_of_range_hw : bit_hw 1 64 = true ∧ bit 1 64 = false := by decide

/-! ### Textual constructor overflow (claim C6) -/

/-- C6: on the input `"$$$$$$$$*"` the constructor reaches row 8 and
executes `set(bitmap, 64)`, i.e. `1 << 64` — undefined behaviour.  Under
the shift-modulo-64 semantics mainstream hardware gives it, bit 0 is set
(`bitmap = 1`), so the content after the eighth `'$'` is *not* discarded;
the documented no-op semantics (`cells_of_format`) would leave the bitmap
equal to that of the prefix `"$$$$$$$$"`, namely 0. -/
theorem cells_format_overflow_hw :
    cells_of_format_hw ['$', '$', '$', '$', '$', '$', '$', '$', '*'] = 1 ∧
    cells_of_format ['$', '$', '$', '$', '$', '$', '$', '$', '*'] = 0 ∧
    cells_of_format ['$', '$', '$', '$', '$', '$', '$', '$'] = 0 := by
  decide

/-! ### Arena allocation (claim C9) -/

/-- C9 (spec-modelled): `allocate(n)` with `head + n ≤ N` returns the index
of `n` fresh consecutive slots and advances `head` by exactly `n`; with
`head + n > N` it returns null and leaves the arena untouched, so a
subsequent fitting allocation still succeeds. -/
theorem memory_arena_allocate_spec (a : memory_arena) (n : Nat) :
    (a.head + n ≤ a.size →
      (a.allocate n).1 = some a.head ∧
      (a.allocate n).2 = ⟨a.size, a.head + n⟩) ∧
    (a.size < a.head + n →
      (a.allocate n).1 = none ∧ (a.allocate n).2 = a) := by
  constructor
  · intro h
    unfold memory_arena.allocate
    rw [if_neg (by omega)]
    exact ⟨rfl, rfl⟩
  · intro h
    unfold memory_arena.allocate
    rw [if_pos (by omega)]
    exact ⟨rfl, rfl⟩

/-- Witness for C9 at the tested capacities: on a fresh arena of size 10,
`allocate(9)` succeeds and advances the head to 9, while `allocate(11)`
fails and leaves the arena unchanged. -/
theorem memory_arena_allocate_spec_witness :
    (((memory_arena.new 10).allocate 9).1 = some 0 ∧
      ((memory_arena.new 10).allocate 9).2 = ⟨10, 9⟩) ∧
    (((memory_arena.new 10).allocate 11).1 = none ∧
      ((memory_arena.new 10).allocate 11).2 = memory_arena.new 10) :=
  ⟨(memory_arena_allocate_spec (memory_arena.new 10) 9).1 (by decide),
   (memory_arena_allocate_spec (memory_arena.new 10) 11).2 (by decide)⟩

end Hashlife

namespace Hashlife

/-! ### Dense-set infrastructure lemmas -/

/-- For a 64-bit hash the reduced tag is a 7-bit value. -/
theorem reduced_hash_lt_128 (h : Nat) (hh : h < 2 ^ 64) : reduced_hash h < 128 := by
  unfold reduced_hash
  have h1 : h >>> 57 < 128 := by
    rw [Nat.shiftRight_eq_div_pow]
    omega
  calc ((h >>> 57) % 256) &&& 0xef ≤ (h >>> 57) % 256 := Nat.and_le_left
    _ = h >>> 57 := Nat.mod_eq_of_lt (by omega)
    _ < 128 := h1

/-- Every slot index is hit by the wrapping probe sequence from `first`. -/
theorem exists_offset (first i C : Nat) (hf : first < C) (hi : i < C) :
    ∃ k, k < C ∧ (first + k) % C = i := by
  refine ⟨(C + i - first) % C, Nat.mod_lt _ (by omega), ?_⟩
  rcases le_or_lt first i with h | h
  · have e1 : (C + i - first) % C = i - first := by
      have e : C + i - first = C + (i - first) := by omega
      rw [e, Nat.add_mod_left, Nat.mod_eq_of_lt (by omega)]
    rw [e1]
    have e2 : first + (i - first) = i := by omega
    rw [e2, Nat.mod_eq_of_lt hi]
  · have e1 : (C + i - first) % C = C + i - first := Nat.mod_eq_of_lt (by omega)
    rw [e1]
    have e2 : first + (C + i - first) = C + i := by omega
    rw [e2, Nat.add_mod_left, Nat.mod_eq_of_lt hi]

namespace dense_set

variable {Key : Type} [DecidableEq Key] [Inhabited Key] {hash : Key → Nat}

/-- Lemma: `find` unfolded to its `List.find?` form. -/
theorem find_def (s : dense_set Key) (key : Key) :
    find hash s key =
      match (List.range s.max_size).find? (findPred hash s key) with
      | some k => (hash key % s.max_size + k) % s.max_size
      | none => s.max_size := rfl

/-- Lemma: `probe` unfolded to its `List.find?` form. -/
theorem probe_def (s : dense_set Key) (first : Nat) :
    probe s first =
      match (List.range (min s.max_size 11 + 1)).find? (probePred s first) with
      | some k => (first + k) % s.max_size
      | none => s.max_size := rfl

/-- A successful `find` lands on an in-range occupied slot whose tag
matches and whose element equals the key. -/
theorem find_found (s : dense_set Key) (x : Key)
    (hne : find hash s x ≠ s.max_size) :
    find hash s x < s.max_size ∧
    (s.sentinelAt (find hash s x)).matchesTag (reduced_hash (hash x)) = true ∧
    s.elementAt (find hash s x) = x := by
  rw [find_def] at hne ⊢
  cases hf : (List.range s.max_size).find? (findPred hash s x) with
  | none => rw [hf] at hne; exact absurd rfl hne
  | some k =>
    have hp := List.find?_some hf
    have hk := List.mem_of_find?_eq_some hf
    rw [List.mem_range] at hk
    unfold findPred at hp
    simp only [Bool.and_eq_true, beq_iff_eq] at hp
    exact ⟨Nat.mod_lt _ (by omega), hp.1, hp.2⟩

/-- When `find` returns the end index, no in-range slot has both a matching
tag and an equal element. -/
theorem find_none (s : dense_set Key) (x : Key) (hC : 0 < s.max_size)
    (h : find hash s x = s.max_size) :
    ∀ i, i < s.max_size →
      ¬((s.sentinelAt i).matchesTag (reduced_hash (hash x)) = true ∧
        s.elementAt i = x) := by
  intro i hi hcon
  rw [find_def] at h
  cases hf : (List.range s.max_size).find? (findPred hash s x) with
  | some k =>
    rw [hf] at h
    have h' : (hash x % s.max_size + k) % s.max_size = s.max_size := h
    have := Nat.mod_lt (hash x % s.max_size + k) hC
    omega
  | none =>
    rw [List.find?_eq_none] at hf
    obtain ⟨k, hk, hki⟩ := exists_offset (hash x % s.max_size) i s.max_size
      (Nat.mod_lt _ hC) hi
    have hfk := hf k (List.mem_range.mpr hk)
    unfold findPred at hfk
    rw [hki] at hfk
    simp [hcon.1, hcon.2] at hfk

/-- A slot that matches and holds the key forces `find` to succeed. -/
theorem find_ne_of_slot (s : dense_set Key) (x : Key) (i : Nat)
    (hC : 0 < s.max_size) (hi : i < s.max_size)
    (hm : (s.sentinelAt i).matchesTag (reduced_hash (hash x)) = true)
    (he : s.elementAt i = x) :
    find hash s x ≠ s.max_size := by
  intro hend
  exact find_none s x hC hend i hi ⟨hm, he⟩

/-- A successful `probe` lands on an in-range empty slot. -/
theorem probe_found (s : dense_set Key) (first : Nat) (hC : 0 < s.max_size)
    (hne : probe s first ≠ s.max_size) :
    probe s first < s.max_size ∧ (s.sentinelAt (probe s first)).isEmpty = true := by
  rw [probe_def] at hne ⊢
  cases hf : (List.range (min s.max_size 11 + 1)).find? (probePred s first) with
  | none => rw [hf] at hne; exact absurd rfl hne
  | some k =>
    have hp := List.find?_some hf
    unfold probePred at hp
    exact ⟨Nat.mod_lt _ hC, hp⟩

/-- If every slot of the probe window (offsets `0 … min capacity 11`) is
occupied, `probe` fails with the end index. -/
theorem probe_end_of_window_filled (s : dense_set Key) (first : Nat)
    (hfull : ∀ k, k ≤ min s.max_size 11 →
      (s.sentinelAt ((first + k) % s.max_size)).filled = true) :
    probe s first = s.max_size := by
  rw [probe_def]
  cases hf : (List.range (min s.max_size 11 + 1)).find? (probePred s first) with
  | none => rfl
  | some k =>
    exfalso
    have hp := List.find?_some hf
    have hk := List.mem_of_find?_eq_some hf
    rw [List.mem_range] at hk
    unfold probePred Sentinel.isEmpty at hp
    rw [hfull k (by omega)] at hp
    simp at hp

/-- Lemma: `emplace` when `find` hits: the state is untouched and the
find iterator is returned with `inserted = false`. -/
theorem emplace_of_found (s : dense_set Key) (x : Key) (j : Nat)
    (hj : find hash s x = j) (hne : j ≠ s.max_size) :
    emplace hash s x = (s, j, false) := by
  simp only [emplace, hj]
  rw [if_pos hne]

/-- Lemma: `emplace` when `find` misses and the probe window is saturated:
the state is untouched and `(end, false)` is returned. -/
theorem emplace_of_probe_fail (s : dense_set Key) (x : Key)
    (hfind : find hash s x = s.max_size)
    (hprobe : probe s (hash x % s.max_size) = s.max_size) :
    emplace hash s x = (s, s.max_size, false) := by
  simp only [emplace, hfind]
  rw [if_neg (fun h => h rfl), hprobe, if_pos rfl]

/-- Lemma: `emplace` when `find` misses and `probe` yields a free slot `j`: the
key is stored at `j`, the sentinel is colonized, `(j, true)` is returned. -/
theorem emplace_of_insert (s : dense_set Key) (x : Key) (j : Nat)
    (hfind : find hash s x = s.max_size)
    (hprobe : probe s (hash x % s.max_size) = j) (hne : j ≠ s.max_size) :
    emplace hash s x =
      (⟨s.elements.set j x,
        s.sentinels.set j (Sentinel.colonize (reduced_hash (hash x)))⟩, j, true) := by
  simp only [emplace, hfind]
  rw [if_neg (fun h => h rfl), hprobe, if_neg hne]

/-- Case analysis on `emplace`: either it leaves the state unchanged and
reports `inserted = false`, or it inserts into a previously empty in-range
slot found by `probe`. -/
theorem emplace_cases (s : dense_set Key) (x : Key) (hC : 0 < s.max_size) :
    (∃ j, emplace hash s x = (s, j, false)) ∨
    (∃ j, j < s.max_size ∧ find hash s x = s.max_size ∧
      probe s (hash x % s.max_size) = j ∧ (s.sentinelAt j).isEmpty = true ∧
      emplace hash s x =
        (⟨s.elements.set j x,
          s.sentinels.set j (Sentinel.colonize (reduced_hash (hash x)))⟩, j, true)) := by
  by_cases hfind : find hash s x = s.max_size
  · by_cases hprobe : probe s (hash x % s.max_size) = s.max_size
    · exact Or.inl ⟨s.max_size, emplace_of_probe_fail s x hfind hprobe⟩
    · obtain ⟨hlt, hemp⟩ := probe_found s (hash x % s.max_size) hC hprobe
      exact Or.inr ⟨probe s (hash x % s.max_size), hlt, hfind, rfl, hemp,
        emplace_of_insert s x _ hfind rfl hprobe⟩
  · exact Or.inl ⟨find hash s x, emplace_of_found s x _ rfl hfind⟩

/-- The capacity after an insertion is unchanged. -/
theorem max_size_mk_set (s : dense_set Key) (j : Nat) (x : Key) (ss : List Sentinel) :
    (dense_set.mk (s.elements.set j x) ss).max_size = s.max_size := by
  simp [max_size]

/-- Sentinels of a fresh table are all empty. -/
theorem sentinelAt_new (count i : Nat) :
    (new Key count).sentinelAt i = Sentinel.init := by
  unfold new sentinelAt
  rw [List.getD_eq_getElem?_getD, List.getElem?_replicate]
  split <;> rfl

/-- The capacity of a fresh table. -/
theorem max_size_new (count : Nat) : (new Key count).max_size = count := by
  simp [new, max_size]

/-- Sentinels after `clear` are all empty. -/
theorem sentinelAt_clear (s : dense_set Key) (i : Nat) :
    s.clear.sentinelAt i = Sentinel.init := by
  unfold clear sentinelAt
  rw [List.getD_eq_getElem?_getD, List.getElem?_replicate]
  split <;> rfl

/-- The sentinel written by an insertion, read back. -/
theorem sentinelAt_mk_set_self (s : dense_set Key) (j : Nat) (x : Key) (t : Sentinel)
    (hlen : s.sentinels.length = s.elements.length) (hj : j < s.max_size) :
    (dense_set.mk (s.elements.set j x) (s.sentinels.set j t)).sentinelAt j = t := by
  unfold sentinelAt
  have hj' : j < s.sentinels.length := by unfold max_size at hj; omega
  simp [List.getD_eq_getElem?_getD, List.getElem?_set_self hj']

/-- Sentinels at other slots are untouched by an insertion. -/
theorem sentinelAt_mk_set_ne (s : dense_set Key) (j i : Nat) (x : Key) (t : Sentinel)
    (hne : j ≠ i) :
    (dense_set.mk (s.elements.set j x) (s.sentinels.set j t)).sentinelAt i =
      s.sentinelAt i := by
  unfold sentinelAt
  simp [List.getD_eq_getElem?_getD, List.getElem?_set_ne hne]

/-- The element written by an insertion, read back. -/
theorem elementAt_mk_set_self (s : dense_set Key) (j : Nat) (x : Key) (ss : List Sentinel)
    (hj : j < s.max_size) :
    (dense_set.mk (s.elements.set j x) ss).elementAt j = x := by
  unfold elementAt
  have hj' : j < s.elements.length := hj
  simp [List.getD_eq_getElem?_getD, List.getElem?_set_self hj']

/-- Elements at other slots are untouched by an insertion. -/
theorem elementAt_mk_set_ne (s : dense_set Key) (j i : Nat) (x : Key) (ss : List Sentinel)
    (hne : j ≠ i) (hss : ss = s.sentinels.set j (Sentinel.colonize (reduced_hash (hash x)))) :
    (dense_set.mk (s.elements.set j x) ss).elementAt i = s.elementAt i := by
  unfold elementAt
  simp [List.getD_eq_getElem?_getD, List.getElem?_set_ne hne]

/-- A fresh table with positive capacity is well-formed. -/
theorem wf_new (hash : Key → Nat) (count : Nat) (hc : 0 < count) :
    WF hash (new Key count) := by
  refine ⟨?_, by simp [new], ?_⟩
  · rw [max_size_new]; exact hc
  · intro i hi hfil
    rw [sentinelAt_new] at hfil
    exact absurd hfil (by simp [Sentinel.init])

/-- Lemma: `clear` preserves well-formedness. -/
theorem wf_clear (s : dense_set Key) (h : WF hash s) : WF hash s.clear := by
  refine ⟨h.1, by simp [clear, h.2.1], ?_⟩
  intro i hi hfil
  rw [sentinelAt_clear] at hfil
  exact absurd hfil (by simp [Sentinel.init])

/-- Lemma: `emplace` preserves well-formedness (for 64-bit hash values, the stored
7-bit tag is exactly the reduced hash of the stored key). -/
theorem wf_emplace (Hh : ∀ k, hash k < 2 ^ 64) (s : dense_set Key) (x : Key)
    (h : WF hash s) : WF hash (emplace hash s x).1 := by
  rcases emplace_cases s x h.1 with ⟨j, hj⟩ | ⟨j, hjlt, hfind, hprobe, hemp, heq⟩
  · rw [hj]; exact h
  · rw [heq]
    refine ⟨?_, ?_, ?_⟩
    · rw [max_size_mk_set]; exact h.1
    · simp [h.2.1]
    · intro i hi hfil
      rw [max_size_mk_set] at hi
      by_cases hij : i = j
      · subst hij
        rw [sentinelAt_mk_set_self s i x _ h.2.1 hjlt] at hfil ⊢
        rw [elementAt_mk_set_self s i x _ hjlt]
        show (reduced_hash (hash x)) % 128 = reduced_hash (hash x)
        exact Nat.mod_eq_of_lt (reduced_hash_lt_128 _ (Hh x))
      · rw [sentinelAt_mk_set_ne s j i x _ (Ne.symm hij)] at hfil ⊢
        rw [elementAt_mk_set_ne s j i x _ (Ne.symm hij) rfl]
        exact h.2.2 i hi hfil

/-- Every reachable state is well-formed. -/
theorem reachable_wf (Hh : ∀ k, hash k < 2 ^ 64) {s : dense_set Key}
    (hs : Reachable hash s) : WF hash s := by
  induction hs with
  | mk_new count hc => exact wf_new hash count hc
  | mk_emplace s x hr ih => exact wf_emplace Hh s x ih
  | mk_clear s hr ih => exact wf_clear s ih

/-- In every reachable state, at most one occupied slot holds any given
key: the deduplication invariant. -/
theorem reachable_at_most_one (Hh : ∀ k, hash k < 2 ^ 64) {s : dense_set Key}
    (hs : Reachable hash s) :
    ∀ x i j, i < s.max_size → j < s.max_size →
      holdsKey s x i → holdsKey s x j → i = j := by
  induction hs with
  | mk_new count hc =>
    intro x i j hi hj hhi hhj
    exfalso
    have hf := hhi.1
    rw [sentinelAt_new] at hf
    simp [Sentinel.init] at hf
  | mk_clear s hr ih =>
    intro x i j hi hj hhi hhj
    exfalso
    have hf := hhi.1
    rw [sentinelAt_clear] at hf
    simp [Sentinel.init] at hf
  | mk_emplace s x0 hr ih =>
    have hwf := reachable_wf Hh hr
    rcases emplace_cases s x0 hwf.1 with ⟨j0, hj0⟩ | ⟨j0, hj0lt, hfind, hprobe, hemp, heq⟩
    · rw [hj0]; exact ih
    · rw [heq]
      intro x i j hi hj hhi hhj
      rw [max_size_mk_set] at hi hj
      have hmiss : ∀ m, m < s.max_size → holdsKey s x0 m → False := by
        intro m hm hhm
        have htag := hwf.2.2 m hm hhm.1
        refine find_none s x0 hwf.1 hfind m hm ⟨?_, hhm.2⟩
        simp [Sentinel.matchesTag, hhm.1, htag, hhm.2]
      by_cases hi0 : i = j0 <;> by_cases hj0' : j = j0
      · rw [hi0, hj0']
      · exfalso
        rw [hi0] at hhi
        have hx : x = x0 := by
          have := hhi.2
          rw [elementAt_mk_set_self s j0 x0 _ hj0lt] at this
          exact this.symm
        refine hmiss j hj ⟨?_, ?_⟩
        · have := hhj.1
          rw [sentinelAt_mk_set_ne s j0 j x0 _ (fun hcon => hj0' hcon.symm)] at this
          exact this
        · have := hhj.2
          rw [elementAt_mk_set_ne s j0 j x0 _ (fun hcon => hj0' hcon.symm) rfl] at this
          rw [this, hx]
      · exfalso
        rw [hj0'] at hhj
        have hx : x = x0 := by
          have := hhj.2
          rw [elementAt_mk_set_self s j0 x0 _ hj0lt] at this
          exact this.symm
        refine hmiss i hi ⟨?_, ?_⟩
        · have := hhi.1
          rw [sentinelAt_mk_set_ne s j0 i x0 _ (fun hcon => hi0 hcon.symm)] at this
          exact this
        · have := hhi.2
          rw [elementAt_mk_set_ne s j0 i x0 _ (fun hcon => hi0 hcon.symm) rfl] at this
          rw [this, hx]
      · have hhi' : holdsKey s x i := by
          refine ⟨?_, ?_⟩
          · have := hhi.1
            rw [sentinelAt_mk_set_ne s j0 i x0 _ (fun hcon => hi0 hcon.symm)] at this
            exact this
          · have := hhi.2
            rw [elementAt_mk_set_ne s j0 i x0 _ (fun hcon => hi0 hcon.symm) rfl] at this
            exact this
        have hhj' : holdsKey s x j := by
          refine ⟨?_, ?_⟩
          · have := hhj.1
            rw [sentinelAt_mk_set_ne s j0 j x0 _ (fun hcon => hj0' hcon.symm)] at this
            exact this
          · have := hhj.2
            rw [elementAt_mk_set_ne s j0 j x0 _ (fun hcon => hj0' hcon.symm) rfl] at this
            exact this
        exact ih x i j hi hj hhi' hhj'

end dense_set

end Hashlife

namespace Hashlife

/-! ### Deduplication (claim C3) -/

/-- C3: in every reachable table state, after a successful `emplace(x)` a
second `emplace(x)` finds the element: it returns `inserted = false`
together with exactly the iterator `find(x)` returns, which points at an
in-range slot holding `x`; the state — and hence `size()` — is unchanged by
the second call.  Moreover, at most one occupied slot ever holds a key
equal to `x` (deduplication invariant over all reachable states). -/
theorem emplace_dedup {Key : Type} [DecidableEq Key] [Inhabited Key]
    (hash : Key → Nat) (Hh : ∀ k, hash k < 2 ^ 64)
    (s : dense_set Key) (hs : dense_set.Reachable hash s) (x : Key) :
    (∀ s' j, dense_set.emplace hash s x = (s', j, true) →
      dense_set.find hash s' x ≠ s'.max_size ∧
      s'.elementAt (dense_set.find hash s' x) = x ∧
      dense_set.emplace hash s' x = (s', dense_set.find hash s' x, false) ∧
      (dense_set.emplace hash s' x).1.size = s'.size) ∧
    (∀ i j, i < s.max_size → j < s.max_size →
      dense_set.holdsKey s x i → dense_set.holdsKey s x j → i = j) := by
  have hwf := dense_set.reachable_wf Hh hs
  constructor
  · intro s' j hemp
    rcases dense_set.emplace_cases s x hwf.1 with ⟨j', hj'⟩ |
      ⟨j', hj'lt, hfind, hprobe, hempty, heq⟩
    · rw [hj'] at hemp
      have := congrArg (fun p => p.2.2) hemp
      simp at this
    · rw [heq] at hemp
      have hs' : s' = dense_set.mk (s.elements.set j' x)
          (s.sentinels.set j' (Sentinel.colonize (reduced_hash (hash x)))) :=
        (congrArg Prod.fst hemp).symm
      have hjj : j = j' := (congrArg (fun p => p.2.1) hemp).symm
      subst hs'
      have hC' : 0 < (dense_set.mk (s.elements.set j' x)
          (s.sentinels.set j' (Sentinel.colonize (reduced_hash (hash x))))).max_size := by
        rw [dense_set.max_size_mk_set]; exact hwf.1
      have hj'lt' : j' < (dense_set.mk (s.elements.set j' x)
          (s.sentinels.set j' (Sentinel.colonize (reduced_hash (hash x))))).max_size := by
        rw [dense_set.max_size_mk_set]; exact hj'lt
      have hm : ((dense_set.mk (s.elements.set j' x)
          (s.sentinels.set j' (Sentinel.colonize (reduced_hash (hash x))))).sentinelAt
            j').matchesTag (reduced_hash (hash x)) = true := by
        rw [dense_set.sentinelAt_mk_set_self s j' x _ hwf.2.1 hj'lt]
        have hlt := reduced_hash_lt_128 (hash x) (Hh x)
        simp [Sentinel.colonize, Sentinel.matchesTag, Nat.mod_eq_of_lt hlt]
      have he : (dense_set.mk (s.elements.set j' x)
          (s.sentinels.set j' (Sentinel.colonize (reduced_hash (hash x))))).elementAt
            j' = x := dense_set.elementAt_mk_set_self s j' x _ hj'lt
      have hne := dense_set.find_ne_of_slot _ x j' hC' hj'lt' hm he
      obtain ⟨hflt, hfm, hfe⟩ := dense_set.find_found _ x hne
      exact ⟨hne, hfe, dense_set.emplace_of_found _ x _ rfl hne,
        by rw [dense_set.emplace_of_found _ x _ rfl hne]⟩
  · exact dense_set.reachable_at_most_one Hh hs x

/-- Witness for C3: inserting key 5 into a fresh capacity-3 table and
emplacing it again returns the unchanged state, the find iterator and
`inserted = false`. -/
theorem emplace_dedup_witness :
    dense_set.emplace id_hash ((dense_set.emplace id_hash (dense_set.new Nat 3) 5).1) 5 =
      ((dense_set.emplace id_hash (dense_set.new Nat 3) 5).1,
       dense_set.find id_hash ((dense_set.emplace id_hash (dense_set.new Nat 3) 5).1) 5,
       false) :=
  ((emplace_dedup id_hash (fun k => Nat.mod_lt k (by decide))
      (dense_set.new Nat 3) (dense_set.Reachable.mk_new 3 (by decide)) 5).1
    ((dense_set.emplace id_hash (dense_set.new Nat 3) 5).1) 2 (by decide)).2.2.1

/-! ### Probe saturation (claim C4) -/

/-- C4 counterexample: in `window_table` (capacity 13, keys 0–9 at slots
0–9), key 13 is absent, its whole 10-slot probe window starting at
`hash(13) mod 13 = 0` is occupied, yet `emplace(13)` *succeeds* (slot 10,
offset 10 of the window, is still empty and within the probe's actual
reach), instead of returning the claimed `(end, false)`. -/
theorem emplace_probe_window_cex :
    dense_set.find id_hash window_table 13 = window_table.max_size ∧
    (∀ k, k < 10 →
      (window_table.sentinelAt
        ((id_hash 13 % window_table.max_size + k) % window_table.max_size)).filled =
        true) ∧
    (window_table.sentinelAt
      ((id_hash 13 % window_table.max_size + 10) % window_table.max_size)).filled =
      false ∧
    dense_set.emplace id_hash window_table 13 =
      ((dense_set.emplace id_hash window_table 13).1, 10, true) := by
  decide

/-- C4 (amended): the insertion probe examines the 12 slots at offsets
`0 … 11` from `hash(x) mod capacity` (the whole table when the capacity is
smaller); when the key is absent and every slot of that window is occupied,
`emplace` returns `(end, false)` and leaves the state unchanged — an
outcome distinguishable from "already present", since a successful `find`
iterator is always strictly below the end index. -/
theorem emplace_probe_saturation {Key : Type} [DecidableEq Key] [Inhabited Key]
    (hash : Key → Nat) (s : dense_set Key) (x : Key)
    (habsent : dense_set.find hash s x = s.max_size)
    (hfull : ∀ k, k ≤ min s.max_size 11 →
      (s.sentinelAt ((hash x % s.max_size + k) % s.max_size)).filled = true) :
    dense_set.emplace hash s x = (s, s.max_size, false) ∧
    (∀ y, dense_set.find hash s y ≠ s.max_size →
      dense_set.find hash s y < s.max_size) := by
  constructor
  · exact dense_set.emplace_of_probe_fail s x habsent
      (dense_set.probe_end_of_window_filled s _ hfull)
  · intro y hy
    exact (dense_set.find_found s y hy).1

/-- Witness for C4 (amended) on a full capacity-1 table: emplacing the
absent key 1 returns `(end, false)`. -/
theorem emplace_probe_saturation_witness :
    dense_set.emplace id_hash ((dense_set.emplace id_hash (dense_set.new Nat 1) 0).1) 1 =
      ((dense_set.emplace id_hash (dense_set.new Nat 1) 0).1,
       ((dense_set.emplace id_hash (dense_set.new Nat 1) 0).1).max_size, false) :=
  (emplace_probe_saturation id_hash
    ((dense_set.emplace id_hash (dense_set.new Nat 1) 0).1) 1
    (by decide) (by decide)).1

/-! ### The reduced-hash tag (claim C5) -/

/-- C5 counterexample: inserting the key `2^61` (whose hash has the fourth
bit of its top-7 field set) stores tag 0 — the 0xEF mask clears that bit —
while the top 7 bits of the hash are `(h >> 57) & 0x7f = 16 ≠ 0`. -/
theorem reduced_hash_mask_cex :
    (((dense_set.emplace id_hash (dense_set.new Nat 2) (2 ^ 61)).1.sentinelAt 0).filled =
      true) ∧
    (((dense_set.emplace id_hash (dense_set.new Nat 2) (2 ^ 61)).1.sentinelAt 0).tag = 0) ∧
    (id_hash (2 ^ 61) >>> 57) &&& 0x7f = 16 := by
  decide

/-- C5 (amended): the tag stored by a successful `emplace` is
`reduced_hash` of the key's hash, and for every 64-bit hash `h` that value
is the top seven bits *masked by 0xEF* — `((h >> 57) & 0x7f) & 0xef` — so
bit 4 of the 7-bit field is dropped rather than all 7 high bits kept. -/
theorem emplace_stores_reduced_tag {Key : Type} [DecidableEq Key] [Inhabited Key]
    (hash : Key → Nat) (Hh : ∀ k, hash k < 2 ^ 64)
    (s : dense_set Key) (hs : dense_set.Reachable hash s) (x : Key) :
    (∀ s' j, dense_set.emplace hash s x = (s', j, true) →
      (s'.sentinelAt j).filled = true ∧
      (s'.sentinelAt j).tag = reduced_hash (hash x)) ∧
    (∀ h, h < 2 ^ 64 → reduced_hash h = ((h >>> 57) &&& 0x7f) &&& 0xef) := by
  have hwf := dense_set.reachable_wf Hh hs
  constructor
  · intro s' j hemp
    rcases dense_set.emplace_cases s x hwf.1 with ⟨j', hj'⟩ |
      ⟨j', hj'lt, hfind, hprobe, hempty, heq⟩
    · rw [hj'] at hemp
      have := congrArg (fun p => p.2.2) hemp
      simp at this
    · rw [heq] at hemp
      have hs' : s' = dense_set.mk (s.elements.set j' x)
          (s.sentinels.set j' (Sentinel.colonize (reduced_hash (hash x)))) :=
        (congrArg Prod.fst hemp).symm
      have hjj : j = j' := (congrArg (fun p => p.2.1) hemp).symm
      subst hs'
      rw [hjj, dense_set.sentinelAt_mk_set_self s j' x _ hwf.2.1 hj'lt]
      have hlt := reduced_hash_lt_128 (hash x) (Hh x)
      exact ⟨rfl, Nat.mod_eq_of_lt hlt⟩
  · intro h hh
    have h1 : h >>> 57 < 128 := by
      rw [Nat.shiftRight_eq_div_pow]
      omega
    unfold reduced_hash
    rw [Nat.mod_eq_of_lt (by omega)]
    have h2 : (h >>> 57) &&& 0x7f = (h >>> 57) % 128 := by
      have := Nat.and_pow_two_sub_one_eq_mod (h >>> 57) 7
      simpa using this
    rw [h2, Nat.mod_eq_of_lt h1]

/-- Witness for C5 (amended): key 5 into a fresh capacity-2 table lands in
slot 1 with tag `reduced_hash (id_hash 5)`; and the reduction identity
evaluated at hash 0. -/
theorem emplace_stores_reduced_tag_witness :
    ((((dense_set.emplace id_hash (dense_set.new Nat 2) 5).1.sentinelAt 1).tag =
        reduced_hash (id_hash 5)) ∧
      reduced_hash 0 = ((0 >>> 57) &&& 0x7f) &&& 0xef) :=
  ⟨((emplace_stores_reduced_tag id_hash (fun k => Nat.mod_lt k (by decide))
      (dense_set.new Nat 2) (dense_set.Reachable.mk_new 2 (by decide)) 5).1
      ((dense_set.emplace id_hash (dense_set.new Nat 2) 5).1) 1 (by decide)).2,
   (emplace_stores_reduced_tag id_hash (fun k => Nat.mod_lt k (by decide))
      (dense_set.new Nat 2) (dense_set.Reachable.mk_new 2 (by decide)) 5).2 0
      (by decide)⟩

/-! ### Iterator advancement (claim C8) -/

/-- C8: incrementing the iterator positioned on the only (occupied) slot of
a capacity-1 table does not stop at `end()`: the scanning loop of
`operator++` has no bound check, so its first read already indexes
`_sentinels` out of bounds (modelled by `none`), contradicting
`static_vector`'s own index assertion. -/
theorem iter_inc_runs_out_of_bounds :
    ((((dense_set.emplace id_hash (dense_set.new Nat 1) 0).1).sentinelAt 0).filled =
      true) ∧
    dense_set.iter_inc ((dense_set.emplace id_hash (dense_set.new Nat 1) 0).1) 0 =
      none := by
  decide

end Hashlife
